import Mathlib

/-!
Verification of the face-ascii-app core (`src/utils/asciiRenderer.ts` and the
`FaceTracker` frame loop) against its natural-language specification.

The renderer is embedded shallowly: the canvas bitmap becomes a structure with
dimensions and an optional pixel map (`getContext` may fail, hence `Option`);
JS number arithmetic on luminance becomes exact rational arithmetic; integer
`Math.floor` expressions on non-negative integers become natural division.
`getImageData` reads outside the canvas yield transparent black pixels, per the
HTML canvas specification, which `sample` encodes.
-/

/-- One RGBA pixel, channels as natural numbers (bytes in a real frame). -/
structure Pixel where
  r : ℕ
  g : ℕ
  b : ℕ
  a : ℕ
  deriving DecidableEq, Repr

/-- A pixel is a real RGBA byte quadruple when every channel is at most 255. -/
def Pixel.Valid (p : Pixel) : Prop :=
  p.r ≤ 255 ∧ p.g ≤ 255 ∧ p.b ≤ 255 ∧ p.a ≤ 255

instance (p : Pixel) : Decidable p.Valid := by
  unfold Pixel.Valid; infer_instance

/-- An HTML canvas: pixel dimensions plus the result of `getContext('2d')` —
`none` when no drawing context can be obtained, otherwise the pixel map of the
current bitmap. -/
structure Canvas where
  width : ℕ
  height : ℕ
  ctx : Option (ℕ → ℕ → Pixel)

/-- Every pixel inside the canvas rectangle is a valid RGBA byte quadruple. -/
def FrameValid (c : Canvas) (pix : ℕ → ℕ → Pixel) : Prop :=
  ∀ x y, x < c.width → y < c.height → (pix x y).Valid

/-- `const ASCII_CHARS = '@%#*+=-:. ';` — the glyph ramp, dark to light. -/
def ASCII_CHARS : List Char := ['@', '%', '#', '*', '+', '=', '-', ':', '.', ' ']

/-- The `ASCIIRenderOptions` interface; the claims always supply all fields. -/
structure ASCIIRenderOptions where
  charWidth : ℕ
  charHeight : ℕ
  maxWidth : ℕ
  maxHeight : ℕ
  deriving DecidableEq, Repr

/-- The option defaults of `renderASCII`: `charWidth = 10, charHeight = 14,
maxWidth = 100, maxHeight = 60`. -/
def defaultOptions : ASCIIRenderOptions := ⟨10, 14, 100, 60⟩

/-- All four option fields are positive integers. -/
def ASCIIRenderOptions.Positive (o : ASCIIRenderOptions) : Prop :=
  0 < o.charWidth ∧ 0 < o.charHeight ∧ 0 < o.maxWidth ∧ 0 < o.maxHeight

instance (o : ASCIIRenderOptions) : Decidable o.Positive := by
  unfold ASCIIRenderOptions.Positive; infer_instance

/-- `ctx.getImageData` semantics for a single pixel: inside the canvas it is
the bitmap's pixel, outside it is transparent black `(0,0,0,0)`. -/
def sample (c : Canvas) (pix : ℕ → ℕ → Pixel) (x y : ℕ) : Pixel :=
  if x < c.width ∧ y < c.height then pix x y else ⟨0, 0, 0, 0⟩

/-- `(0.299 * r + 0.587 * g + 0.114 * b) * (a / 255)` — the weighted luminance
of one sampled pixel, exact rational arithmetic. -/
def luminance (p : Pixel) : ℚ :=
  ((0.299 : ℚ) * p.r + (0.587 : ℚ) * p.g + (0.114 : ℚ) * p.b) * ((p.a : ℚ) / 255)

/-- The per-cell brightness loop of `renderASCII` (lines 47–57): accumulate the
luminance of the `charWidth × charHeight` block anchored at `(px, py)` (the
block's `ImageData` is row-major, pixels outside the canvas transparent black),
then divide by `charWidth * charHeight * 255`. -/
def blockBrightness (c : Canvas) (pix : ℕ → ℕ → Pixel) (cw ch px py : ℕ) : ℚ :=
  (((List.range ch).map (fun j =>
      ((List.range cw).map (fun i => luminance (sample c pix (px + i) (py + j)))).sum)).sum)
    / ((cw : ℚ) * ch * 255)

/-- `Math.floor(brightness * (ASCII_CHARS.length - 1))` as a natural number
(the brightness is never negative, so `Int.toNat` is the identity here). -/
def charIndex (brightness : ℚ) : ℕ :=
  (⌊brightness * ((ASCII_CHARS.length : ℚ) - 1)⌋).toNat

/-- `ASCII_CHARS[i]` appended to a JS string: one ramp character when `i` is in
range, otherwise the characters of `"undefined"` (JS indexing out of range
yields `undefined`, which `+=` coerces to that string). -/
def glyph (i : ℕ) : List Char :=
  if i < ASCII_CHARS.length then [ASCII_CHARS.getD i ' '] else "undefined".data

/-- `sampleWidth = Math.min(maxWidth, Math.floor(canvas.width / charWidth))` —
the number of grid columns. -/
def sampleWidth (c : Canvas) (o : ASCIIRenderOptions) : ℕ :=
  min o.maxWidth (c.width / o.charWidth)

/-- `sampleHeight = Math.min(maxHeight, Math.floor(canvas.height / charHeight))`
— the number of grid rows. -/
def sampleHeight (c : Canvas) (o : ASCIIRenderOptions) : ℕ :=
  min o.maxHeight (c.height / o.charHeight)

/-- The body of the inner `x` loop for grid cell `(x, y)`: anchor
`pixelX = Math.floor(x * canvas.width / sampleWidth)`,
`pixelY = Math.floor(y * canvas.height / sampleHeight)`, then the glyph chosen
from the block's brightness. -/
def cellChars (c : Canvas) (pix : ℕ → ℕ → Pixel) (o : ASCIIRenderOptions) (x y : ℕ) :
    List Char :=
  let pixelX := (x * c.width) / sampleWidth c o
  let pixelY := (y * c.height) / sampleHeight c o
  glyph (charIndex (blockBrightness c pix o.charWidth o.charHeight pixelX pixelY))

/-- One iteration of the outer `y` loop, before its trailing newline: the
concatenation of the cells of row `y`. -/
def lineChars (c : Canvas) (pix : ℕ → ℕ → Pixel) (o : ASCIIRenderOptions) (y : ℕ) :
    List Char :=
  ((List.range (sampleWidth c o)).map (fun x => cellChars c pix o x y)).flatten

/-- The characters accumulated in `asciiArt` by the double loop of
`renderASCII`: for each row, the row's cells followed by `'\n'`. -/
def asciiChars (c : Canvas) (pix : ℕ → ℕ → Pixel) (o : ASCIIRenderOptions) : List Char :=
  ((List.range (sampleHeight c o)).map (fun y => lineChars c pix o y ++ ['\n'])).flatten

/-- `renderASCII(canvas, options)`: empty string when `getContext` fails,
otherwise the serialized grid. -/
def renderASCII (c : Canvas) (o : ASCIIRenderOptions) : String :=
  match c.ctx with
  | none => ""
  | some pix => String.mk (asciiChars c pix o)

/-- `getOptimalSettings(canvasWidth, canvasHeight)`:
`scale = Math.max(w, h) / 1000`, `charWidth = Math.max(8, Math.floor(10 * scale))`,
`charHeight = Math.max(12, Math.floor(14 * scale))`, `maxWidth = Math.floor(w / 12)`,
`maxHeight = Math.floor(h / 16)`. -/
def getOptimalSettings (canvasWidth canvasHeight : ℕ) : ASCIIRenderOptions :=
  let scale : ℚ := (max canvasWidth canvasHeight : ℚ) / 1000
  ⟨max 8 (⌊(10 : ℚ) * scale⌋).toNat,
   max 12 (⌊(14 : ℚ) * scale⌋).toNat,
   canvasWidth / 12,
   canvasHeight / 16⟩

/-- A uniform ASCII block: `rows` lines, each `cols` copies of one character
followed by a newline. -/
def uniformBlock (rows cols : ℕ) (ch : Char) : String :=
  String.mk ((List.replicate rows (List.replicate cols ch ++ ['\n'])).flatten)

/-! ## The frame-loop throttle (`FaceTracker.processFrame`, video branch)

The mutable refs that drive detection throttling become an explicit state:
`frameCount` is `frameCountRef.current`, `faceDetection` is
`faceDetectionRef.current`. `detectionIntervalRef.current` is the constant 10.
One video-branch tick takes the environment's inputs — whether models are
still loading and what the detector would report — and returns the new state
together with whether the detector was actually invoked. -/

structure LoopState where
  frameCount : ℕ
  faceDetection : Bool
  deriving DecidableEq, Repr

/-- One video-branch tick: `frameCountRef.current++`; when the counter reaches
the interval it is reset and, unless models are loading, the face detector is
invoked and its result stored; otherwise the previous detection result is kept
untouched. The returned `Bool` records whether the detector was invoked. -/
def videoTick (s : LoopState) (isLoading : Bool) (detResult : Bool) :
    LoopState × Bool :=
  let c := s.frameCount + 1
  if 10 ≤ c then
    if isLoading then (⟨0, s.faceDetection⟩, false)
    else (⟨0, detResult⟩, true)
  else (⟨c, s.faceDetection⟩, false)

/-- Number of detector invocations across a run of consecutive video-branch
ticks, each tick given by its `(isLoading, detector result)` environment. -/
def countDetections (s : LoopState) : List (Bool × Bool) → ℕ
  | [] => 0
  | (il, d) :: rest =>
      (if (videoTick s il d).2 then 1 else 0) + countDetections (videoTick s il d).1 rest

/-- Modelled from the spec (§4.1), for comparison with the code's
`sampleWidth`: the spec states the effective column count is
`min(maxWidth, floor(frame.width / charWidth))` "floored at 1 to avoid a
degenerate empty grid". -/
def specGridCols (c : Canvas) (o : ASCIIRenderOptions) : ℕ :=
  max 1 (min o.maxWidth (c.width / o.charWidth))

/-- Modelled from the spec (§4.1), for comparison with the code's
`sampleHeight`: `min(maxHeight, floor(frame.height / charHeight))`, floored
at 1. -/
def specGridRows (c : Canvas) (o : ASCIIRenderOptions) : ℕ :=
  max 1 (min o.maxHeight (c.height / o.charHeight))

/-! ### Concrete frames used to instantiate the theorems -/

/-- A readable 640×480 all-black frame (the spec's end-to-end example). -/
def blackCanvas640 : Canvas := ⟨640, 480, some fun _ _ => ⟨0, 0, 0, 255⟩⟩

/-- A readable 20×28 uniform gray frame. -/
def grayCanvas : Canvas := ⟨20, 28, some fun _ _ => ⟨100, 100, 100, 255⟩⟩

/-- A readable 5×5 all-black frame — smaller than one default character cell. -/
def smallCanvas5 : Canvas := ⟨5, 5, some fun _ _ => ⟨0, 0, 0, 255⟩⟩

/-- A readable 7×9 all-white frame — smaller than one default character cell. -/
def whiteCanvas79 : Canvas := ⟨7, 9, some fun _ _ => ⟨255, 255, 255, 255⟩⟩

/-- A readable 10×10 all-black frame — the near-zero case for the sizing
policy. -/
def tinyCanvas10 : Canvas := ⟨10, 10, some fun _ _ => ⟨0, 0, 0, 255⟩⟩

/-! ## Basic facts about the glyph ramp and luminance -/

lemma ascii_chars_length : ASCII_CHARS.length = 10 := by decide

lemma ascii_len_sub_one : ((ASCII_CHARS.length : ℚ) - 1) = 9 := by
  rw [ascii_chars_length]; norm_num

lemma getD_ascii_ne_newline (i : ℕ) : ASCII_CHARS.getD i ' ' ≠ '\n' := by
  rcases Nat.lt_or_ge i 10 with h | h
  · interval_cases i <;> decide
  · rw [List.getD_eq_default]
    · decide
    · rw [ascii_chars_length]; omega

lemma getD_ascii_mem (i : ℕ) (h : i ≤ 9) : ASCII_CHARS.getD i ' ' ∈ ASCII_CHARS := by
  interval_cases i <;> decide

lemma luminance_nonneg (p : Pixel) : 0 ≤ luminance p := by
  unfold luminance
  positivity

lemma luminance_zero : luminance ⟨0, 0, 0, 0⟩ = 0 := by
  norm_num [luminance]

lemma luminance_black : luminance ⟨0, 0, 0, 255⟩ = 0 := by
  norm_num [luminance]

lemma luminance_white : luminance ⟨255, 255, 255, 255⟩ = 255 := by
  norm_num [luminance]

lemma luminance_le_255 (p : Pixel) (hp : p.Valid) : luminance p ≤ 255 := by
  obtain ⟨hr, hg, hb, ha⟩ := hp
  have hr' : (p.r : ℚ) ≤ 255 := by exact_mod_cast hr
  have hg' : (p.g : ℚ) ≤ 255 := by exact_mod_cast hg
  have hb' : (p.b : ℚ) ≤ 255 := by exact_mod_cast hb
  have ha' : (p.a : ℚ) ≤ 255 := by exact_mod_cast ha
  have h1 : (0.299 : ℚ) * p.r + (0.587 : ℚ) * p.g + (0.114 : ℚ) * p.b ≤ 255 := by
    have c1 : (0.299 : ℚ) * p.r ≤ 0.299 * 255 :=
      mul_le_mul_of_nonneg_left hr' (by norm_num)
    have c2 : (0.587 : ℚ) * p.g ≤ 0.587 * 255 :=
      mul_le_mul_of_nonneg_left hg' (by norm_num)
    have c3 : (0.114 : ℚ) * p.b ≤ 0.114 * 255 :=
      mul_le_mul_of_nonneg_left hb' (by norm_num)
    have : (0.299 : ℚ) * 255 + 0.587 * 255 + 0.114 * 255 = 255 := by norm_num
    linarith
  have h2 : (p.a : ℚ) / 255 ≤ 1 := by
    rw [div_le_one (by norm_num : (0 : ℚ) < 255)]
    exact ha'
  have h3 : (0 : ℚ) ≤ (p.a : ℚ) / 255 := by positivity
  have h0 : (0 : ℚ) ≤ (0.299 : ℚ) * p.r + (0.587 : ℚ) * p.g + (0.114 : ℚ) * p.b := by
    positivity
  calc luminance p ≤ 255 * 1 := mul_le_mul h1 h2 h3 (by norm_num)
    _ = 255 := by norm_num

lemma luminance_sample_le (c : Canvas) (pix : ℕ → ℕ → Pixel) (hv : FrameValid c pix)
    (x y : ℕ) : luminance (sample c pix x y) ≤ 255 := by
  unfold sample
  by_cases h : x < c.width ∧ y < c.height
  · rw [if_pos h]
    exact luminance_le_255 _ (hv x y h.1 h.2)
  · rw [if_neg h, luminance_zero]
    norm_num

/-! ## Summation helpers -/

lemma sum_range_le (n : ℕ) (f : ℕ → ℚ) (bound : ℚ) (h : ∀ i, i < n → f i ≤ bound) :
    ((List.range n).map f).sum ≤ n * bound := by
  induction n with
  | zero => simp
  | succ k ih =>
    rw [List.range_succ, List.map_append, List.sum_append]
    have h1 := ih (fun i hi => h i (Nat.lt_succ_of_lt hi))
    have h2 := h k (Nat.lt_succ_self k)
    simp only [List.map_cons, List.map_nil, List.sum_cons, List.sum_nil]
    push_cast
    linarith

lemma sum_range_nonneg (n : ℕ) (f : ℕ → ℚ) (h : ∀ i, i < n → 0 ≤ f i) :
    0 ≤ ((List.range n).map f).sum := by
  apply List.sum_nonneg
  intro q hq
  obtain ⟨i, hi, rfl⟩ := List.mem_map.mp hq
  exact h i (List.mem_range.mp hi)

lemma sum_range_const (n : ℕ) (cval : ℚ) :
    ((List.range n).map (fun _ => cval)).sum = n * cval := by
  rw [List.map_const', List.sum_replicate, List.length_range, nsmul_eq_mul]

lemma flatten_replicate_singleton (n : ℕ) (g : Char) :
    (List.replicate n [g]).flatten = List.replicate n g := by
  induction n with
  | zero => rfl
  | succ k ih => simp [List.replicate_succ, ih]

/-! ## Brightness bounds -/

lemma blockBrightness_nonneg (c : Canvas) (pix : ℕ → ℕ → Pixel) (cw ch px py : ℕ) :
    0 ≤ blockBrightness c pix cw ch px py := by
  unfold blockBrightness
  apply div_nonneg
  · apply sum_range_nonneg
    intro j _
    apply sum_range_nonneg
    intro i _
    exact luminance_nonneg _
  · positivity

lemma blockBrightness_le_one (c : Canvas) (pix : ℕ → ℕ → Pixel) (hv : FrameValid c pix)
    (cw ch px py : ℕ) (hcw : 0 < cw) (hch : 0 < ch) :
    blockBrightness c pix cw ch px py ≤ 1 := by
  have hcw' : (0 : ℚ) < cw := by exact_mod_cast hcw
  have hch' : (0 : ℚ) < ch := by exact_mod_cast hch
  unfold blockBrightness
  rw [div_le_one (by positivity)]
  calc ((List.range ch).map (fun j =>
          ((List.range cw).map (fun i => luminance (sample c pix (px + i) (py + j)))).sum)).sum
      ≤ ch * ((cw : ℚ) * 255) := by
        apply sum_range_le
        intro j _
        apply sum_range_le
        intro i _
        exact luminance_sample_le c pix hv _ _
    _ = (cw : ℚ) * ch * 255 := by ring

/-! ## Character index bounds -/

lemma charIndex_le_nine (b : ℚ) (hb : b ≤ 1) : charIndex b ≤ 9 := by
  unfold charIndex
  rw [ascii_len_sub_one]
  have hmul : b * 9 ≤ 9 := by linarith
  have h1 : ⌊b * 9⌋ ≤ 9 := by
    calc ⌊b * 9⌋ ≤ ⌊(9 : ℚ)⌋ := Int.floor_le_floor hmul
      _ = 9 := by norm_num
  omega

lemma charIndex_zero : charIndex 0 = 0 := by
  unfold charIndex
  rw [ascii_len_sub_one]
  norm_num

lemma charIndex_one : charIndex 1 = 9 := by
  unfold charIndex
  rw [ascii_len_sub_one]
  norm_num
  rfl

/-! ## Grid geometry: the sampled block never leaves the canvas -/

lemma sampleWidth_mul_le (c : Canvas) (o : ASCIIRenderOptions) :
    sampleWidth c o * o.charWidth ≤ c.width := by
  calc sampleWidth c o * o.charWidth
      ≤ (c.width / o.charWidth) * o.charWidth :=
        Nat.mul_le_mul_right _ (min_le_right _ _)
    _ ≤ c.width := Nat.div_mul_le_self _ _

lemma sampleHeight_mul_le (c : Canvas) (o : ASCIIRenderOptions) :
    sampleHeight c o * o.charHeight ≤ c.height := by
  calc sampleHeight c o * o.charHeight
      ≤ (c.height / o.charHeight) * o.charHeight :=
        Nat.mul_le_mul_right _ (min_le_right _ _)
    _ ≤ c.height := Nat.div_mul_le_self _ _

/-- The anchor of a cell plus one block extent stays inside the frame: with
`cols * cw ≤ w` and `x < cols`, `⌊x * w / cols⌋ + cw ≤ w`. -/
lemma anchor_add_le (w cols cw x : ℕ) (hcw : cols * cw ≤ w) (hx : x < cols) :
    (x * w) / cols + cw ≤ w := by
  have hcols : 0 < cols := Nat.pos_of_ne_zero (by omega)
  apply Nat.le_of_mul_le_mul_right _ hcols
  calc ((x * w) / cols + cw) * cols
      = (x * w) / cols * cols + cw * cols := add_mul _ _ _
    _ ≤ x * w + cw * cols := by
        exact Nat.add_le_add_right (Nat.div_mul_le_self _ _) _
    _ ≤ x * w + w := by
        apply Nat.add_le_add_left
        rw [mul_comm]
        exact hcw
    _ = (x + 1) * w := by ring
    _ ≤ cols * w := Nat.mul_le_mul_right _ hx
    _ = w * cols := mul_comm _ _

/-! ## Cell, line and block structure -/

lemma cellChars_eq (c : Canvas) (pix : ℕ → ℕ → Pixel) (o : ASCIIRenderOptions)
    (x y : ℕ) (hv : FrameValid c pix) (hcw : 0 < o.charWidth) (hch : 0 < o.charHeight) :
    cellChars c pix o x y =
      [ASCII_CHARS.getD (charIndex (blockBrightness c pix o.charWidth o.charHeight
        ((x * c.width) / sampleWidth c o) ((y * c.height) / sampleHeight c o))) ' '] := by
  unfold cellChars glyph
  rw [if_pos]
  rw [ascii_chars_length]
  have := charIndex_le_nine _ (blockBrightness_le_one c pix hv o.charWidth o.charHeight
    ((x * c.width) / sampleWidth c o) ((y * c.height) / sampleHeight c o) hcw hch)
  omega

lemma cellChars_length (c : Canvas) (pix : ℕ → ℕ → Pixel) (o : ASCIIRenderOptions)
    (x y : ℕ) (hv : FrameValid c pix) (hcw : 0 < o.charWidth) (hch : 0 < o.charHeight) :
    (cellChars c pix o x y).length = 1 := by
  rw [cellChars_eq c pix o x y hv hcw hch]
  rfl

lemma cellChars_count_newline (c : Canvas) (pix : ℕ → ℕ → Pixel) (o : ASCIIRenderOptions)
    (x y : ℕ) (hv : FrameValid c pix) (hcw : 0 < o.charWidth) (hch : 0 < o.charHeight) :
    (cellChars c pix o x y).count '\n' = 0 := by
  rw [cellChars_eq c pix o x y hv hcw hch, List.count_eq_zero]
  intro hmem
  rcases List.mem_singleton.mp hmem with h
  exact getD_ascii_ne_newline _ h.symm

lemma cellChars_subset_ramp (c : Canvas) (pix : ℕ → ℕ → Pixel) (o : ASCIIRenderOptions)
    (x y : ℕ) (hv : FrameValid c pix) (hcw : 0 < o.charWidth) (hch : 0 < o.charHeight) :
    ∀ ch ∈ cellChars c pix o x y, ch ∈ ASCII_CHARS := by
  rw [cellChars_eq c pix o x y hv hcw hch]
  intro ch hmem
  rcases List.mem_singleton.mp hmem with h
  subst h
  apply getD_ascii_mem
  exact charIndex_le_nine _ (blockBrightness_le_one c pix hv _ _ _ _ hcw hch)

lemma lineChars_length (c : Canvas) (pix : ℕ → ℕ → Pixel) (o : ASCIIRenderOptions)
    (y : ℕ) (hv : FrameValid c pix) (hcw : 0 < o.charWidth) (hch : 0 < o.charHeight) :
    (lineChars c pix o y).length = sampleWidth c o := by
  unfold lineChars
  rw [List.length_flatten, List.map_map]
  have hcong : ∀ x ∈ List.range (sampleWidth c o),
      (List.length ∘ fun x => cellChars c pix o x y) x = (fun _ => 1) x := by
    intro x _
    exact cellChars_length c pix o x y hv hcw hch
  rw [List.map_congr_left hcong, List.map_const', List.sum_replicate, List.length_range]
  simp

lemma lineChars_count_newline (c : Canvas) (pix : ℕ → ℕ → Pixel) (o : ASCIIRenderOptions)
    (y : ℕ) (hv : FrameValid c pix) (hcw : 0 < o.charWidth) (hch : 0 < o.charHeight) :
    (lineChars c pix o y).count '\n' = 0 := by
  unfold lineChars
  rw [List.count_flatten, List.map_map]
  apply Nat.eq_zero_of_le_zero
  apply le_of_eq
  apply List.sum_eq_zero
  intro q hq
  obtain ⟨x, _, rfl⟩ := List.mem_map.mp hq
  exact cellChars_count_newline c pix o x y hv hcw hch

lemma asciiChars_length (c : Canvas) (pix : ℕ → ℕ → Pixel) (o : ASCIIRenderOptions)
    (hv : FrameValid c pix) (hcw : 0 < o.charWidth) (hch : 0 < o.charHeight) :
    (asciiChars c pix o).length = sampleHeight c o * (sampleWidth c o + 1) := by
  unfold asciiChars
  rw [List.length_flatten, List.map_map]
  have hcong : ∀ y ∈ List.range (sampleHeight c o),
      (List.length ∘ fun y => lineChars c pix o y ++ ['\n']) y
        = (fun _ => sampleWidth c o + 1) y := by
    intro y _
    simp [lineChars_length c pix o y hv hcw hch]
  rw [List.map_congr_left hcong, List.map_const', List.sum_replicate, List.length_range]
  simp [Nat.mul_comm]

lemma asciiChars_count_newline (c : Canvas) (pix : ℕ → ℕ → Pixel) (o : ASCIIRenderOptions)
    (hv : FrameValid c pix) (hcw : 0 < o.charWidth) (hch : 0 < o.charHeight) :
    (asciiChars c pix o).count '\n' = sampleHeight c o := by
  unfold asciiChars
  rw [List.count_flatten, List.map_map]
  have hcong : ∀ y ∈ List.range (sampleHeight c o),
      (List.count '\n' ∘ fun y => lineChars c pix o y ++ ['\n']) y = (fun _ => 1) y := by
    intro y _
    simp only [Function.comp_apply, List.count_append]
    rw [lineChars_count_newline c pix o y hv hcw hch]
    rfl
  rw [List.map_congr_left hcong, List.map_const', List.sum_replicate, List.length_range]
  simp

/-! ## Uniform frames -/

lemma asciiChars_uniform (c : Canvas) (pix : ℕ → ℕ → Pixel) (o : ASCIIRenderOptions)
    (g : Char)
    (hcell : ∀ x y, x < sampleWidth c o → y < sampleHeight c o →
      cellChars c pix o x y = [g]) :
    asciiChars c pix o =
      (List.replicate (sampleHeight c o) (List.replicate (sampleWidth c o) g ++ ['\n'])).flatten := by
  unfold asciiChars
  congr 1
  have hline : ∀ y ∈ List.range (sampleHeight c o),
      lineChars c pix o y ++ ['\n']
        = (fun _ => List.replicate (sampleWidth c o) g ++ ['\n']) y := by
    intro y hy
    congr 1
    unfold lineChars
    have hcong : ∀ x ∈ List.range (sampleWidth c o),
        cellChars c pix o x y = (fun _ => [g]) x := by
      intro x hx
      exact hcell x y (List.mem_range.mp hx) (List.mem_range.mp hy)
    rw [List.map_congr_left hcong, List.map_const', List.length_range,
      flatten_replicate_singleton]
  rw [List.map_congr_left hline, List.map_const', List.length_range]

lemma blockBrightness_black (c : Canvas) (pix : ℕ → ℕ → Pixel) (cw ch px py : ℕ)
    (hblack : ∀ x y, x < c.width → y < c.height → pix x y = ⟨0, 0, 0, 255⟩) :
    blockBrightness c pix cw ch px py = 0 := by
  unfold blockBrightness
  have hnum : ((List.range ch).map (fun j =>
      ((List.range cw).map (fun i => luminance (sample c pix (px + i) (py + j)))).sum)).sum
      = 0 := by
    apply List.sum_eq_zero
    intro q hq
    obtain ⟨j, _, rfl⟩ := List.mem_map.mp hq
    apply List.sum_eq_zero
    intro r hr
    obtain ⟨i, _, rfl⟩ := List.mem_map.mp hr
    unfold sample
    by_cases h : px + i < c.width ∧ py + j < c.height
    · rw [if_pos h, hblack _ _ h.1 h.2, luminance_black]
    · rw [if_neg h, luminance_zero]
  rw [hnum, zero_div]

lemma blockBrightness_white (c : Canvas) (pix : ℕ → ℕ → Pixel) (cw ch px py : ℕ)
    (hwhite : ∀ x y, x < c.width → y < c.height → pix x y = ⟨255, 255, 255, 255⟩)
    (hcw : 0 < cw) (hch : 0 < ch)
    (hx : px + cw ≤ c.width) (hy : py + ch ≤ c.height) :
    blockBrightness c pix cw ch px py = 1 := by
  have hcw' : (0 : ℚ) < cw := by exact_mod_cast hcw
  have hch' : (0 : ℚ) < ch := by exact_mod_cast hch
  unfold blockBrightness
  have hnum : ((List.range ch).map (fun j =>
      ((List.range cw).map (fun i => luminance (sample c pix (px + i) (py + j)))).sum)).sum
      = (ch : ℚ) * ((cw : ℚ) * 255) := by
    have hrow : ∀ j ∈ List.range ch,
        ((List.range cw).map (fun i => luminance (sample c pix (px + i) (py + j)))).sum
          = (fun _ => (cw : ℚ) * 255) j := by
      intro j hj
      have hj' := List.mem_range.mp hj
      have hcell : ∀ i ∈ List.range cw,
          luminance (sample c pix (px + i) (py + j)) = (fun _ => (255 : ℚ)) i := by
        intro i hi
        have hi' := List.mem_range.mp hi
        have hin : px + i < c.width ∧ py + j < c.height := ⟨by omega, by omega⟩
        unfold sample
        rw [if_pos hin, hwhite _ _ hin.1 hin.2, luminance_white]
      rw [List.map_congr_left hcell]
      exact sum_range_const cw 255
    rw [List.map_congr_left hrow]
    exact sum_range_const ch ((cw : ℚ) * 255)
  rw [hnum, div_eq_one_iff_eq (by positivity)]
  ring

/-! ## `getOptimalSettings` over natural numbers -/

lemma getOptimalSettings_eq (w h : ℕ) :
    getOptimalSettings w h =
      ⟨max 8 ((10 * max w h) / 1000), max 12 ((14 * max w h) / 1000),
       w / 12, h / 16⟩ := by
  have k10 : (⌊(10 : ℚ) * (((max w h : ℕ) : ℚ) / 1000)⌋).toNat = (10 * max w h) / 1000 := by
    rw [show (10 : ℚ) * (((max w h : ℕ) : ℚ) / 1000)
        = ((10 * max w h : ℕ) : ℚ) / ((1000 : ℕ) : ℚ) by push_cast; ring]
    rw [Int.floor_toNat, Nat.floor_div_nat, Nat.floor_natCast]
  have k14 : (⌊(14 : ℚ) * (((max w h : ℕ) : ℚ) / 1000)⌋).toNat = (14 * max w h) / 1000 := by
    rw [show (14 : ℚ) * (((max w h : ℕ) : ℚ) / 1000)
        = ((14 * max w h : ℕ) : ℚ) / ((1000 : ℕ) : ℚ) by push_cast; ring]
    rw [Int.floor_toNat, Nat.floor_div_nat, Nat.floor_natCast]
  simp only [getOptimalSettings]
  rw [show ((w : ℚ) ⊔ (h : ℚ)) = ((max w h : ℕ) : ℚ) by rw [Nat.cast_max], k10, k14]

/-! ## Throttle counting -/

lemma countDetections_eq_zero (l : List (Bool × Bool)) :
    ∀ s : LoopState, s.frameCount + l.length ≤ 9 → countDetections s l = 0 := by
  induction l with
  | nil => intro s _; rfl
  | cons t rest ih =>
    intro s h
    obtain ⟨il, d⟩ := t
    have hlen : s.frameCount + 1 + rest.length ≤ 9 := by
      simp only [List.length_cons] at h
      omega
    have hlt : ¬ 10 ≤ s.frameCount + 1 := by omega
    simp only [countDetections, videoTick, if_neg hlt]
    simpa using ih ⟨s.frameCount + 1, s.faceDetection⟩ hlen

lemma countDetections_le_one (l : List (Bool × Bool)) :
    ∀ s : LoopState, l.length ≤ 10 → countDetections s l ≤ 1 := by
  induction l with
  | nil => intro s _; exact Nat.zero_le 1
  | cons t rest ih =>
    intro s h
    obtain ⟨il, d⟩ := t
    have hrest : rest.length ≤ 9 := by
      simp only [List.length_cons] at h
      omega
    by_cases h10 : 10 ≤ s.frameCount + 1
    · cases il with
      | true =>
        simp only [countDetections, videoTick, if_pos h10, if_pos rfl]
        have := countDetections_eq_zero rest ⟨0, s.faceDetection⟩ (by simp; omega)
        simp [this]
      | false =>
        simp only [countDetections, videoTick, if_pos h10]
        have := countDetections_eq_zero rest ⟨0, d⟩ (by simp; omega)
        simp [this]
    · simp only [countDetections, videoTick, if_neg h10]
      have := ih ⟨s.frameCount + 1, s.faceDetection⟩ (by omega)
      simpa using this

/-! ## Unfolding `renderASCII` on a readable canvas -/

lemma renderASCII_eq_mk (c : Canvas) (o : ASCIIRenderOptions) (pix : ℕ → ℕ → Pixel)
    (hctx : c.ctx = some pix) :
    renderASCII c o = String.mk (asciiChars c pix o) := by
  obtain ⟨w, h, ctx⟩ := c
  dsimp only at hctx
  subst hctx
  rfl

lemma lineChars_subset_ramp (c : Canvas) (pix : ℕ → ℕ → Pixel) (o : ASCIIRenderOptions)
    (y : ℕ) (hv : FrameValid c pix) (hcw : 0 < o.charWidth) (hch : 0 < o.charHeight) :
    ∀ chr ∈ lineChars c pix o y, chr ∈ ASCII_CHARS := by
  unfold lineChars
  intro chr hmem
  rw [List.mem_flatten] at hmem
  obtain ⟨l, hl, hchr⟩ := hmem
  obtain ⟨x, _, rfl⟩ := List.mem_map.mp hl
  exact cellChars_subset_ramp c pix o x y hv hcw hch chr hchr

lemma renderASCII_all_black (c : Canvas) (o : ASCIIRenderOptions) (pix : ℕ → ℕ → Pixel)
    (hctx : c.ctx = some pix) (hpos : o.Positive)
    (hblack : ∀ x y, x < c.width → y < c.height → pix x y = ⟨0, 0, 0, 255⟩) :
    renderASCII c o = uniformBlock (sampleHeight c o) (sampleWidth c o) '@' := by
  obtain ⟨hcw, hch, _, _⟩ := hpos
  rw [renderASCII_eq_mk c o pix hctx]
  unfold uniformBlock
  congr 1
  have hv : FrameValid c pix := by
    intro a b ha hb
    rw [hblack a b ha hb]
    decide
  apply asciiChars_uniform
  intro x y _ _
  rw [cellChars_eq c pix o x y hv hcw hch,
    blockBrightness_black c pix _ _ _ _ hblack, charIndex_zero]
  rfl

lemma renderASCII_all_white (c : Canvas) (o : ASCIIRenderOptions) (pix : ℕ → ℕ → Pixel)
    (hctx : c.ctx = some pix) (hpos : o.Positive)
    (hwhite : ∀ x y, x < c.width → y < c.height → pix x y = ⟨255, 255, 255, 255⟩) :
    renderASCII c o = uniformBlock (sampleHeight c o) (sampleWidth c o) ' ' := by
  obtain ⟨hcw, hch, _, _⟩ := hpos
  rw [renderASCII_eq_mk c o pix hctx]
  unfold uniformBlock
  congr 1
  have hv : FrameValid c pix := by
    intro a b ha hb
    rw [hwhite a b ha hb]
    decide
  apply asciiChars_uniform
  intro x y hx hy
  have hax : (x * c.width) / sampleWidth c o + o.charWidth ≤ c.width :=
    anchor_add_le c.width (sampleWidth c o) o.charWidth x (sampleWidth_mul_le c o) hx
  have hay : (y * c.height) / sampleHeight c o + o.charHeight ≤ c.height :=
    anchor_add_le c.height (sampleHeight c o) o.charHeight y (sampleHeight_mul_le c o) hy
  rw [cellChars_eq c pix o x y hv hcw hch,
    blockBrightness_white c pix _ _ _ _ hwhite hcw hch hax hay, charIndex_one]
  rfl

/-! ## Claims -/

/-- C1 (corrected): `renderASCII` uses the effective grid
`cols = min(maxWidth, ⌊frame.width / charWidth⌋)` and
`rows = min(maxHeight, ⌊frame.height / charHeight⌋)`, but with NO flooring at 1:
a frame shorter than one character cell yields an empty grid and empty output,
contrary to the original claim that the grid is never empty. -/
theorem C1_effective_grid :
    ∀ (c : Canvas) (o : ASCIIRenderOptions) (pix : ℕ → ℕ → Pixel),
      c.ctx = some pix → o.Positive →
      sampleWidth c o = min o.maxWidth (c.width / o.charWidth) ∧
      sampleHeight c o = min o.maxHeight (c.height / o.charHeight) ∧
      (c.height < o.charHeight → renderASCII c o = "") := by
  intro c o pix hctx _
  refine ⟨rfl, rfl, fun hh => ?_⟩
  rw [renderASCII_eq_mk c o pix hctx]
  have h0 : sampleHeight c o = 0 := by
    unfold sampleHeight
    rw [Nat.div_eq_of_lt hh]
    exact Nat.min_zero _
  unfold asciiChars
  rw [h0]
  rfl

/-- C1 witness: the general theorem applied to the readable 5×5 black frame
with the default options, whose height 5 is below the default cell height
14 — the output is empty. -/
theorem C1_witness : renderASCII smallCanvas5 defaultOptions = "" :=
  (C1_effective_grid smallCanvas5 defaultOptions (fun _ _ => ⟨0, 0, 0, 255⟩)
    rfl (by decide)).2.2 (by decide)

/-- C1 counterexample: on the readable 5×5 black frame with default options
the code's grid is 0×0 and the output empty, while the claim's "floored at 1"
sizes (the spec-modelled `specGridCols`/`specGridRows`) are 1×1 — the grid IS
empty for a frame smaller than one character cell. -/
theorem C1_counterexample :
    sampleWidth smallCanvas5 defaultOptions = 0 ∧
    sampleHeight smallCanvas5 defaultOptions = 0 ∧
    specGridCols smallCanvas5 defaultOptions = 1 ∧
    specGridRows smallCanvas5 defaultOptions = 1 ∧
    renderASCII smallCanvas5 defaultOptions = "" :=
  ⟨rfl, rfl, rfl, rfl, rfl⟩

/-- C2 (corrected): for a readable valid frame and positive options the output
decomposes into exactly `sampleHeight` newline-terminated lines of exactly
`sampleWidth` characters each (no ragged lines) — where the grid size is the
code's un-floored formula, not §4.1's floored-at-1 one. -/
theorem C2_line_structure :
    ∀ (c : Canvas) (o : ASCIIRenderOptions) (pix : ℕ → ℕ → Pixel),
      c.ctx = some pix → FrameValid c pix → o.Positive →
      ∃ ls : List (List Char),
        (renderASCII c o).data = (ls.map (fun l => l ++ ['\n'])).flatten ∧
        ls.length = sampleHeight c o ∧
        ∀ l ∈ ls, l.length = sampleWidth c o := by
  intro c o pix hctx hv hpos
  obtain ⟨hcw, hch, _, _⟩ := hpos
  refine ⟨(List.range (sampleHeight c o)).map (fun y => lineChars c pix o y), ?_, ?_, ?_⟩
  · rw [renderASCII_eq_mk c o pix hctx]
    show asciiChars c pix o = _
    unfold asciiChars
    rw [List.map_map]
    rfl
  · rw [List.length_map, List.length_range]
  · intro l hl
    obtain ⟨y, _, rfl⟩ := List.mem_map.mp hl
    exact lineChars_length c pix o y hv hcw hch

/-- C2 witness: the line decomposition at the readable 20×28 gray frame with
default options (a 2×2 grid). -/
theorem C2_witness :
    ∃ ls : List (List Char),
      (renderASCII grayCanvas defaultOptions).data
        = (ls.map (fun l => l ++ ['\n'])).flatten ∧
      ls.length = sampleHeight grayCanvas defaultOptions ∧
      ∀ l ∈ ls, l.length = sampleWidth grayCanvas defaultOptions :=
  C2_line_structure grayCanvas defaultOptions (fun _ _ => ⟨100, 100, 100, 255⟩)
    rfl (fun _ _ _ _ => (by decide : Pixel.Valid ⟨100, 100, 100, 255⟩)) (by decide)

/-- C2 counterexample: on the readable 7×9 white frame with default options
§4.1's floored grid size demands 1 line of 1 character, but the code's output
is empty (no newline at all). -/
theorem C2_counterexample :
    specGridRows whiteCanvas79 defaultOptions = 1 ∧
    specGridCols whiteCanvas79 defaultOptions = 1 ∧
    (renderASCII whiteCanvas79 defaultOptions).data.count '\n' = 0 ∧
    renderASCII whiteCanvas79 defaultOptions = "" :=
  ⟨rfl, rfl, rfl, rfl⟩

/-- C3: for every readable valid frame, positive options and effective-grid
cell, the cell's brightness (the block's luminance sum normalized by
`charWidth·charHeight·255`) lies in `[0, 1]`, the glyph index
`⌊brightness · (rampLength − 1)⌋` lies in `[0, rampLength − 1]`, and the cell's
character is `ASCII_CHARS[index]`. -/
theorem C3_brightness_bounds :
    ∀ (c : Canvas) (o : ASCIIRenderOptions) (pix : ℕ → ℕ → Pixel),
      c.ctx = some pix → FrameValid c pix → o.Positive →
      ∀ x y, x < sampleWidth c o → y < sampleHeight c o →
        0 ≤ blockBrightness c pix o.charWidth o.charHeight
            ((x * c.width) / sampleWidth c o) ((y * c.height) / sampleHeight c o) ∧
        blockBrightness c pix o.charWidth o.charHeight
            ((x * c.width) / sampleWidth c o) ((y * c.height) / sampleHeight c o) ≤ 1 ∧
        charIndex (blockBrightness c pix o.charWidth o.charHeight
            ((x * c.width) / sampleWidth c o) ((y * c.height) / sampleHeight c o))
          ≤ ASCII_CHARS.length - 1 ∧
        cellChars c pix o x y
          = [ASCII_CHARS.getD (charIndex (blockBrightness c pix o.charWidth o.charHeight
              ((x * c.width) / sampleWidth c o) ((y * c.height) / sampleHeight c o))) ' '] := by
  intro c o pix _ hv hpos x y _ _
  obtain ⟨hcw, hch, _, _⟩ := hpos
  have hle := blockBrightness_le_one c pix hv o.charWidth o.charHeight
    ((x * c.width) / sampleWidth c o) ((y * c.height) / sampleHeight c o) hcw hch
  refine ⟨blockBrightness_nonneg c pix _ _ _ _, hle, ?_, cellChars_eq c pix o x y hv hcw hch⟩
  rw [ascii_chars_length]
  exact charIndex_le_nine _ hle

/-- C3 witness: the brightness and glyph-index bounds at cell (0,0) of the
readable 20×28 gray frame with default options. -/
theorem C3_witness :
    0 ≤ blockBrightness grayCanvas (fun _ _ => ⟨100, 100, 100, 255⟩) 10 14
        ((0 * grayCanvas.width) / sampleWidth grayCanvas defaultOptions)
        ((0 * grayCanvas.height) / sampleHeight grayCanvas defaultOptions) ∧
    blockBrightness grayCanvas (fun _ _ => ⟨100, 100, 100, 255⟩) 10 14
        ((0 * grayCanvas.width) / sampleWidth grayCanvas defaultOptions)
        ((0 * grayCanvas.height) / sampleHeight grayCanvas defaultOptions) ≤ 1 ∧
    charIndex (blockBrightness grayCanvas (fun _ _ => ⟨100, 100, 100, 255⟩) 10 14
        ((0 * grayCanvas.width) / sampleWidth grayCanvas defaultOptions)
        ((0 * grayCanvas.height) / sampleHeight grayCanvas defaultOptions))
      ≤ ASCII_CHARS.length - 1 ∧
    cellChars grayCanvas (fun _ _ => ⟨100, 100, 100, 255⟩) defaultOptions 0 0
      = [ASCII_CHARS.getD (charIndex (blockBrightness grayCanvas
          (fun _ _ => ⟨100, 100, 100, 255⟩) 10 14
          ((0 * grayCanvas.width) / sampleWidth grayCanvas defaultOptions)
          ((0 * grayCanvas.height) / sampleHeight grayCanvas defaultOptions))) ' '] :=
  C3_brightness_bounds grayCanvas defaultOptions (fun _ _ => ⟨100, 100, 100, 255⟩)
    rfl (fun _ _ _ _ => (by decide : Pixel.Valid ⟨100, 100, 100, 255⟩)) (by decide) 0 0 (by decide) (by decide)

/-- C4: an all-black readable frame (luminance 0, alpha 255) renders with the
ramp's first character `'@'` in every cell, an all-white frame with the ramp's
last (blank) character, and in particular the 640×480 black frame with
`charWidth=10, charHeight=14, maxWidth=64, maxHeight=34` yields 34 lines of 64
`'@'` characters. -/
theorem C4_black_white :
    ∀ (c : Canvas) (o : ASCIIRenderOptions) (pix : ℕ → ℕ → Pixel),
      c.ctx = some pix → o.Positive →
      ((∀ x y, x < c.width → y < c.height → pix x y = ⟨0, 0, 0, 255⟩) →
        renderASCII c o = uniformBlock (sampleHeight c o) (sampleWidth c o) '@') ∧
      ((∀ x y, x < c.width → y < c.height → pix x y = ⟨255, 255, 255, 255⟩) →
        renderASCII c o = uniformBlock (sampleHeight c o) (sampleWidth c o) ' ') ∧
      renderASCII blackCanvas640 ⟨10, 14, 64, 34⟩ = uniformBlock 34 64 '@' := by
  intro c o pix hctx hpos
  refine ⟨renderASCII_all_black c o pix hctx hpos,
          renderASCII_all_white c o pix hctx hpos, ?_⟩
  have h := renderASCII_all_black blackCanvas640 ⟨10, 14, 64, 34⟩
    (fun _ _ => ⟨0, 0, 0, 255⟩) rfl (by decide) (fun _ _ _ _ => rfl)
  rw [h]
  rfl

/-- C4 witness: the theorem applied to the 640×480 black frame with options
(10, 14, 64, 34) gives the 34×64 block of `'@'`. -/
theorem C4_witness :
    renderASCII blackCanvas640 ⟨10, 14, 64, 34⟩ = uniformBlock 34 64 '@' :=
  (C4_black_white blackCanvas640 ⟨10, 14, 64, 34⟩ (fun _ _ => ⟨0, 0, 0, 255⟩)
    rfl (by decide)).2.2

/-- C5: the brightness-to-glyph mapping is monotonic — a cell whose normalized
brightness is at least another's never gets a smaller glyph index. -/
theorem C5_monotone_mapping :
    ∀ b₁ b₂ : ℚ, b₁ ≤ b₂ → charIndex b₁ ≤ charIndex b₂ := by
  intro b₁ b₂ h
  unfold charIndex
  have h9 : (0 : ℚ) ≤ (ASCII_CHARS.length : ℚ) - 1 := by
    rw [ascii_chars_length]
    norm_num
  exact Int.toNat_le_toNat (Int.floor_le_floor (mul_le_mul_of_nonneg_right h h9))

/-- C5 witness: the monotone mapping at brightnesses 0 ≤ 1. -/
theorem C5_witness : charIndex (0 : ℚ) ≤ charIndex (1 : ℚ) :=
  C5_monotone_mapping (0 : ℚ) (1 : ℚ) (by decide)

/-- C6 (corrected): `getOptimalSettings` can produce an empty effective grid
for near-zero canvases (see the counterexample); the grid has at least one
column and one row whenever `12 ≤ w`, `16 ≤ h`, `⌊10·max(w,h)/1000⌋ ≤ w` and
`⌊14·max(w,h)/1000⌋ ≤ h`. -/
theorem C6_grid_positive :
    ∀ (w h : ℕ) (pix : ℕ → ℕ → Pixel),
      12 ≤ w → 16 ≤ h → (10 * max w h) / 1000 ≤ w → (14 * max w h) / 1000 ≤ h →
      1 ≤ sampleWidth ⟨w, h, some pix⟩ (getOptimalSettings w h) ∧
      1 ≤ sampleHeight ⟨w, h, some pix⟩ (getOptimalSettings w h) := by
  intro w h pix hw hh hcw hch
  rw [getOptimalSettings_eq]
  constructor
  · show 1 ≤ min (w / 12) (w / max 8 ((10 * max w h) / 1000))
    rw [le_min_iff]
    refine ⟨?_, ?_⟩
    · rw [Nat.le_div_iff_mul_le (by norm_num)]
      omega
    · rw [Nat.le_div_iff_mul_le
        (Nat.lt_of_lt_of_le (by norm_num : 0 < 8) (le_max_left _ _)), one_mul]
      exact max_le (by omega) hcw
  · show 1 ≤ min (h / 16) (h / max 12 ((14 * max w h) / 1000))
    rw [le_min_iff]
    refine ⟨?_, ?_⟩
    · rw [Nat.le_div_iff_mul_le (by norm_num)]
      omega
    · rw [Nat.le_div_iff_mul_le
        (Nat.lt_of_lt_of_le (by norm_num : 0 < 12) (le_max_left _ _)), one_mul]
      exact max_le (by omega) hch

/-- C6 witness: at the capture resolution 640×480 the policy's settings give a
non-degenerate grid. -/
theorem C6_witness :
    1 ≤ sampleWidth ⟨640, 480, some fun _ _ => ⟨0, 0, 0, 255⟩⟩ (getOptimalSettings 640 480) ∧
    1 ≤ sampleHeight ⟨640, 480, some fun _ _ => ⟨0, 0, 0, 255⟩⟩ (getOptimalSettings 640 480) :=
  C6_grid_positive 640 480 (fun _ _ => ⟨0, 0, 0, 255⟩)
    (by decide) (by decide) (by decide) (by decide)

/-- C6 counterexample: for the near-zero 10×10 canvas the policy returns
`maxWidth = ⌊10/12⌋ = 0` and `maxHeight = ⌊10/16⌋ = 0`, so the effective grid
is 0×0 and the rendered output empty — `cols ≥ 1` fails. -/
theorem C6_counterexample :
    sampleWidth tinyCanvas10 (getOptimalSettings 10 10) = 0 ∧
    sampleHeight tinyCanvas10 (getOptimalSettings 10 10) = 0 ∧
    renderASCII tinyCanvas10 (getOptimalSettings 10 10) = "" := by
  rw [getOptimalSettings_eq]
  exact ⟨rfl, rfl, rfl⟩

/-- C7: when the bitmap cannot be read (no drawing context), `renderASCII`
returns the empty string for every canvas size and every options value. -/
theorem C7_unreadable_empty :
    ∀ (w h : ℕ) (o : ASCIIRenderOptions), renderASCII ⟨w, h, none⟩ o = "" :=
  fun _ _ _ => rfl

/-- C8: per-cell sampling is total over the effective grid: for every grid
cell the sampled `charWidth × charHeight` block lies entirely inside the
frame, and a read at or beyond the frame edge yields a transparent pixel that
contributes zero luminance. -/
theorem C8_sampling_total :
    ∀ (c : Canvas) (o : ASCIIRenderOptions) (pix : ℕ → ℕ → Pixel),
      c.ctx = some pix → o.Positive →
      (∀ x y, x < sampleWidth c o → y < sampleHeight c o →
        (x * c.width) / sampleWidth c o + o.charWidth ≤ c.width ∧
        (y * c.height) / sampleHeight c o + o.charHeight ≤ c.height) ∧
      (∀ px py, ¬(px < c.width ∧ py < c.height) →
        luminance (sample c pix px py) = 0) := by
  intro c o pix _ _
  constructor
  · intro x y hx hy
    exact ⟨anchor_add_le c.width (sampleWidth c o) o.charWidth x
        (sampleWidth_mul_le c o) hx,
      anchor_add_le c.height (sampleHeight c o) o.charHeight y
        (sampleHeight_mul_le c o) hy⟩
  · intro px py hout
    unfold sample
    rw [if_neg hout, luminance_zero]

/-- C8 witness: cell (0,0) of the 20×28 gray frame with default options stays
in bounds, and the out-of-range read at (99,99) has zero luminance. -/
theorem C8_witness :
    (0 * grayCanvas.width) / sampleWidth grayCanvas defaultOptions
        + defaultOptions.charWidth ≤ grayCanvas.width ∧
    (0 * grayCanvas.height) / sampleHeight grayCanvas defaultOptions
        + defaultOptions.charHeight ≤ grayCanvas.height ∧
    luminance (sample grayCanvas (fun _ _ => ⟨100, 100, 100, 255⟩) 99 99) = 0 := by
  have h := C8_sampling_total grayCanvas defaultOptions
    (fun _ _ => ⟨100, 100, 100, 255⟩) rfl (by decide)
  exact ⟨(h.1 0 0 (by decide) (by decide)).1, (h.1 0 0 (by decide) (by decide)).2,
    h.2 99 99 (by decide)⟩

/-- C9: across any 10 consecutive video-branch ticks the face detector is
invoked at most once, and any tick that skips detection leaves the previous
tick's stored detection result unchanged. -/
theorem C9_throttle :
    ∀ (s : LoopState) (ticks : List (Bool × Bool)), ticks.length = 10 →
      countDetections s ticks ≤ 1 ∧
      ∀ (s' : LoopState) (il d : Bool), (videoTick s' il d).2 = false →
        (videoTick s' il d).1.faceDetection = s'.faceDetection := by
  intro s ticks hlen
  constructor
  · exact countDetections_le_one ticks s (by omega)
  · intro s' il d hskip
    unfold videoTick at hskip ⊢
    by_cases h10 : 10 ≤ s'.frameCount + 1
    · rw [if_pos h10] at hskip ⊢
      cases il with
      | true => simp
      | false => simp at hskip
    · rw [if_neg h10] at hskip ⊢

/-- C9 witness: from a fresh counter, 10 video ticks (detector reporting a
face each time it runs) invoke the detector at most once; a skipped tick (the
4th from counter 3) keeps the stored result `true`. -/
theorem C9_witness :
    countDetections ⟨0, false⟩ (List.replicate 10 (false, true)) ≤ 1 ∧
    (videoTick ⟨3, true⟩ false true).1.faceDetection = true := by
  have h := C9_throttle ⟨0, false⟩ (List.replicate 10 (false, true)) (by decide)
  exact ⟨h.1, h.2 ⟨3, true⟩ false true (by decide)⟩

/-- C10: the output string is exactly `rows` repetitions of (`cols` ramp
glyphs followed by one `'\n'`): its length is `rows·(cols+1)`, it contains
exactly `rows` newline characters, and when `rows ≥ 1` it ends with a trailing
newline. -/
theorem C10_repetition :
    ∀ (c : Canvas) (o : ASCIIRenderOptions) (pix : ℕ → ℕ → Pixel),
      c.ctx = some pix → FrameValid c pix → o.Positive →
      (∃ g : ℕ → List Char,
        (renderASCII c o).data
          = ((List.range (sampleHeight c o)).map (fun y => g y ++ ['\n'])).flatten ∧
        ∀ y, y < sampleHeight c o →
          (g y).length = sampleWidth c o ∧ ∀ chr ∈ g y, chr ∈ ASCII_CHARS) ∧
      (renderASCII c o).length = sampleHeight c o * (sampleWidth c o + 1) ∧
      (renderASCII c o).data.count '\n' = sampleHeight c o ∧
      (1 ≤ sampleHeight c o → ∃ pre, (renderASCII c o).data = pre ++ ['\n']) := by
  intro c o pix hctx hv hpos
  obtain ⟨hcw, hch, _, _⟩ := hpos
  have hdata : (renderASCII c o).data = asciiChars c pix o := by
    rw [renderASCII_eq_mk c o pix hctx]
  refine ⟨⟨fun y => lineChars c pix o y, ?_, ?_⟩, ?_, ?_, ?_⟩
  · rw [hdata]
    rfl
  · intro y _
    exact ⟨lineChars_length c pix o y hv hcw hch,
      lineChars_subset_ramp c pix o y hv hcw hch⟩
  · have hlen : (renderASCII c o).length = (asciiChars c pix o).length := by
      rw [renderASCII_eq_mk c o pix hctx]
      rfl
    rw [hlen]
    exact asciiChars_length c pix o hv hcw hch
  · rw [hdata]
    exact asciiChars_count_newline c pix o hv hcw hch
  · intro h1
    rw [hdata]
    obtain ⟨k, hk⟩ : ∃ k, sampleHeight c o = k + 1 :=
      ⟨sampleHeight c o - 1, by omega⟩
    refine ⟨((List.range k).map (fun y => lineChars c pix o y ++ ['\n'])).flatten
        ++ lineChars c pix o k, ?_⟩
    unfold asciiChars
    rw [hk, List.range_succ, List.map_append, List.flatten_append]
    simp [List.append_assoc]

/-- C10 witness: on the 20×28 gray frame with default options (a 2×2 grid)
the output has length `2·(2+1)`, exactly 2 newlines, and a trailing newline. -/
theorem C10_witness :
    (renderASCII grayCanvas defaultOptions).length
      = sampleHeight grayCanvas defaultOptions * (sampleWidth grayCanvas defaultOptions + 1) ∧
    (renderASCII grayCanvas defaultOptions).data.count '\n'
      = sampleHeight grayCanvas defaultOptions ∧
    ∃ pre, (renderASCII grayCanvas defaultOptions).data = pre ++ ['\n'] := by
  have h := C10_repetition grayCanvas defaultOptions (fun _ _ => ⟨100, 100, 100, 255⟩)
    rfl (fun _ _ _ _ => (by decide : Pixel.Valid ⟨100, 100, 100, 255⟩)) (by decide)
  exact ⟨h.2.1, h.2.2.1, h.2.2.2 (by decide)⟩
